import Mathlib

/-!
Verification of the tree-maintenance core of the Planer.pro repository
(recursive subtree deletion, progress aggregation, sibling ordering),
shallowly embedded from the Python sources:

* `src/app.py` (Flask routes, Supabase-backed)
* `src/deepseek_python_20260219_9ba60a.py` (`PlanManager` / `ContentManager`)
* `src/deepseek_python_20260219_4c20d8.py` (Cloudinary-backed variant)

The external stores are modelled explicitly: the tree store is a list of
node rows (a Supabase `plans`/`models` table restricted to one session),
and the blob store is observed through the list of delete-by-identifier
invocations each operation performs.  Scalar columns never read by the
logic under scrutiny (`description`, `plan_id`, `created_at`, session
ids) are elided; every field that the embedded control flow touches is
kept.
-/

namespace Planer

/-- One entry of a plan's `content` JSON array.  `isPhoto` models
`item['type'] == 'photo'`; `mediaRefs` models the `cloudinary_id`s of
`item['data']['images']`; `payload` stands for the rest of
`item['data']` (opaque to the tree logic). -/
structure ContentItem where
  id : Nat
  isPhoto : Bool
  mediaRefs : List String
  payload : Nat
deriving Repr, DecidableEq

/-- A row of the `plans`/`models` table.  `parent_id` is `none` for a
root.  `photo` holds the Cloudinary public id of the node's own cover
photo (the code stores a URL and re-derives the public id; we keep the
public id directly).  `position` is an integer sibling-order column;
no code in the repository ever writes it, so inserted rows carry
`none`. -/
structure Node where
  id : Nat
  parent_id : Option Nat
  title : String
  photo : Option String
  content : List ContentItem
  progress : Int
  level : Int
  position : Option Int
deriving Repr, DecidableEq

/-- The tree store: the rows of the table visible to one session. -/
abbrev Store := List Node

/-- A key passed to the blob store's delete-by-identifier operation
(`cloudinary.uploader.destroy`).  `nodeKey pid` is the id-derived key
`f"plans/{session_id}/{pid}"` used by `delete_plan` in `app.py`;
`refKey r` is a raw stored public id (as used for content images). -/
inductive BlobKey where
  | nodeKey (pid : Nat) : BlobKey
  | refKey (r : String) : BlobKey
deriving Repr, DecidableEq

/-- `getNode`: read a row by id (`select ... .eq('id', id)`, first row). -/
def getNode (s : Store) (i : Nat) : Option Node :=
  s.find? (fun n => n.id = i)

/-- Direct children of `pid` (`select ... .eq('parent_id', pid)`),
in table order. -/
def childrenOf (s : Store) (pid : Nat) : List Node :=
  s.filter (fun n => n.parent_id = some pid)

/-- The ids of the direct children of `pid`. -/
def childIds (s : Store) (pid : Nat) : List Nat :=
  (childrenOf s pid).map (·.id)

/-- `update ... set progress = p where id = i` (all matching rows). -/
def setProgress (s : Store) (i : Nat) (p : Int) : Store :=
  s.map (fun n => if n.id = i then { n with progress := p } else n)

/-- `update ... set content = c where id = i` (all matching rows). -/
def setContent (s : Store) (i : Nat) (c : List ContentItem) : Store :=
  s.map (fun n => if n.id = i then { n with content := c } else n)

/-! ## Well-formedness of a store (the spec's structural invariants) -/

/-- Row ids are unique (primary-key property of the table). -/
def UniqueIds (s : Store) : Prop := (s.map (·.id)).Nodup

/-- Decidable test that an optional parent reference resolves. -/
def parentExists (s : Store) : Option Nat → Bool
  | none => true
  | some p => s.any (fun m => m.id = p)

/-- Every non-null `parent_id` references an existing row. -/
def ParentClosed (s : Store) : Prop := ∀ n ∈ s, parentExists s n.parent_id = true

/-- A child's `level` strictly exceeds its parent's. -/
def LevelOK (s : Store) : Prop :=
  ∀ n ∈ s, ∀ m ∈ s, n.parent_id = some m.id → m.level < n.level

/-- Levels are at least `1` (roots are level `1`). -/
def LevelPos (s : Store) : Prop := ∀ n ∈ s, 1 ≤ n.level

/-- Well-formed store: the invariants of spec §3. -/
def WF (s : Store) : Prop := UniqueIds s ∧ ParentClosed s ∧ LevelOK s ∧ LevelPos s

instance : DecidablePred UniqueIds := fun _ => by unfold UniqueIds; infer_instance
instance : DecidablePred ParentClosed := fun _ => by unfold ParentClosed; infer_instance
instance : DecidablePred LevelOK := fun _ => by unfold LevelOK; infer_instance
instance : DecidablePred LevelPos := fun _ => by unfold LevelPos; infer_instance
instance : DecidablePred WF := fun _ => by unfold WF; infer_instance

/-- `c` is registered as a direct child of `p`: some row has id `c` and
parent reference `p`. -/
def isChild (s : Store) (p c : Nat) : Prop :=
  ∃ n ∈ s, n.id = c ∧ n.parent_id = some p

instance (s : Store) (p c : Nat) : Decidable (isChild s p c) := by
  unfold isChild; infer_instance

/-- The descendant relation: transitive closure of direct childhood.
`Desc s p c` means `c` lies in the descendant set `D` of `p`. -/
def Desc (s : Store) : Nat → Nat → Prop :=
  Relation.TransGen (isChild s)

/-- The level stored for id `i` (`0` if no row has that id). -/
def lvlOf (s : Store) (i : Nat) : Int :=
  ((getNode s i).map (·.level)).getD 0

/-! ## Subtree deletion, collect-then-delete variant (`app.py`, lines 549-586)

`get_all_child_ids` is the nested helper of `delete_plan`: it lists the
direct children and then extends the list with each child's recursive
result.  The Python recursion has no termination guard (a cyclic store
would loop forever), so the embedding takes a fuel argument; with fuel
at least the maximal stored `level`, it is exhaustive on well-formed
stores (proved below). -/

def get_all_child_ids (s : Store) : Nat → Nat → List Nat
  | 0, _ => []
  | fuel + 1, pid =>
    let direct := childIds s pid
    direct ++ direct.flatMap (fun c => get_all_child_ids s fuel c)

/-- Result of `delete_plan` in `app.py`: the surviving rows, the blob
delete invocations performed, which of them raised (all swallowed by
the bare `except: pass`), and everything the handler logged. -/
structure DelPlanResult where
  store : Store
  blobDeletes : List BlobKey
  failedDeletes : List BlobKey
  log : List String
deriving Repr, DecidableEq

/-- `delete_plan` (`app.py`, lines 549-586): collect the descendant ids
with `get_all_child_ids`, invoke `cloudinary.uploader.destroy` on the
id-derived key of every id in `{plan_id} ∪ D` (each failure silently
ignored by `except: pass`), then remove all collected rows with one
`delete().in_('id', all_ids)` call.  `blobFail` is the set of keys
whose destroy call raises. -/
def delete_plan (s : Store) (fuel : Nat) (blobFail : List BlobKey)
    (plan_id : Nat) : DelPlanResult :=
  let child_ids := get_all_child_ids s fuel plan_id
  let all_ids := plan_id :: child_ids
  let destroys := all_ids.map BlobKey.nodeKey
  { store := s.filter (fun n => ¬ all_ids.contains n.id)
    blobDeletes := destroys
    failedDeletes := destroys.filter (fun k => blobFail.contains k)
    log := [] }

/-! ## Traced executions (for the ordering claims)

To reason about the order of store operations we instrument the two
subtree-deletion variants with an event trace. -/

/-- Observable store events of a subtree deletion: a child-listing read
(`select ... .eq('parent_id', pid)`), a single-row delete, a bulk
delete, and a blob destroy. -/
inductive Ev where
  | readChildren (pid : Nat) : Ev
  | delRow (i : Nat) : Ev
  | delRows (ids : List Nat) : Ev
  | destroy (k : BlobKey) : Ev
deriving Repr, DecidableEq

def Ev.isRead : Ev → Bool
  | .readChildren _ => true
  | _ => false

def Ev.isDelete : Ev → Bool
  | .delRow _ => true
  | .delRows _ => true
  | _ => false

/-- `get_all_child_ids`, instrumented with its reads: each invocation
first reads the children of `pid`, then performs the recursive reads in
sibling order. -/
def get_all_child_ids_tr (s : Store) : Nat → Nat → List Nat × List Ev
  | 0, _ => ([], [])
  | fuel + 1, pid =>
    let direct := childIds s pid
    let rec_results := direct.map (fun c => get_all_child_ids_tr s fuel c)
    (direct ++ (rec_results.map (·.1)).flatten,
     Ev.readChildren pid :: (rec_results.map (·.2)).flatten)

/-- `delete_plan` (`app.py`), instrumented: all child-listing reads,
then all blob destroys, then one bulk row delete. -/
def delete_plan_tr (s : Store) (fuel : Nat) (plan_id : Nat) :
    List Nat × List Ev :=
  let collected := get_all_child_ids_tr s fuel plan_id
  let all_ids := plan_id :: collected.1
  (all_ids,
   collected.2 ++ all_ids.map (fun pid => Ev.destroy (BlobKey.nodeKey pid))
     ++ [Ev.delRows all_ids])

/-- Result of `PlanManager.delete_plan`
(`deepseek_python_20260219_9ba60a.py`, lines 104-117): the surviving
rows, the boolean the call returns, the event trace, and the ids named
in `logger.error("Error deleting plan {plan_id}: ...")` lines. -/
structure PMResult where
  store : Store
  ok : Bool
  trace : List Ev
  log : List Nat
deriving Repr, DecidableEq

/-- The `for child in children.data:` loop of `PlanManager.delete_plan`:
run the subtree deletion `f` on each listed child in order, threading
the store and collecting traces and logs; each child's returned boolean
is discarded, exactly as the Python loop discards the recursive call's
result. -/
def pm_loop (f : Store → Nat → PMResult) : Store → List Nat →
    Store × List Ev × List Nat
  | s, [] => (s, [], [])
  | s, c :: cs =>
    let r := f s c
    let rest := pm_loop f r.store cs
    (rest.1, r.trace ++ rest.2.1, r.log ++ rest.2.2)

/-- `PlanManager.delete_plan`: read the direct children, recursively
delete each child's subtree through the `for` loop (`pm_loop`), then
delete this node's own row.  Any exception — modelled here as a row
delete of an id in `rowFail` raising — is caught by the enclosing
`try`, logged with the plan id (`log`), and reported as `False`.  Fuel
models Python's (unbounded) recursion depth. -/
def pm_delete_plan (rowFail : List Nat) : Nat → Store → Nat → PMResult
  | 0, s, _ => { store := s, ok := false, trace := [], log := [] }
  | fuel + 1, s, pid =>
    let sub := pm_loop (pm_delete_plan rowFail fuel) s (childIds s pid)
    if rowFail.contains pid then
      { store := sub.1, ok := false
        trace := Ev.readChildren pid :: sub.2.1
        log := sub.2.2 ++ [pid] }
    else
      { store := sub.1.filter (fun n => n.id ≠ pid), ok := true
        trace := (Ev.readChildren pid :: sub.2.1) ++ [Ev.delRow pid]
        log := sub.2.2 }

/-- Decidable form of "the full collection phase precedes every
deletion": the trace splits into a prefix with no delete event followed
by a suffix with no child-listing read. -/
def readsBeforeDeletes (tr : List Ev) : Bool :=
  (List.range (tr.length + 1)).any (fun k =>
    ((tr.take k).all (fun e => ! e.isDelete)) &&
    ((tr.drop k).all (fun e => ! e.isRead)))

/-- Every row deletion in the trace is preceded by the child-listing
read of the deleted node itself. -/
def DelAfterOwnRead (tr : List Ev) : Prop :=
  ∀ (i x : Nat), tr[i]? = some (Ev.delRow x) →
    ∃ j < i, tr[j]? = some (Ev.readChildren x)

/-- `delete_from_cloudinary` (`deepseek_python_20260219_4c20d8.py`,
lines 82-89): invoke the blob store's destroy; on an exception print a
"Cloudinary delete error" line and return `False`, otherwise return
`True`.  `fails` is the set of public ids whose destroy raises. -/
def delete_from_cloudinary (fails : List String) (public_id : String) :
    Bool × List String :=
  if fails.contains public_id then
    (false, ["Cloudinary delete error: " ++ public_id])
  else
    (true, [])

/-! ## Progress aggregation (`app.py`, lines 331-371)

`update_progress` and `update_parent_progress` are translated exactly as
written.  Both reference `self.update_parent_progress` even though they
are module-level functions, so that call raises `NameError` at run
time; in `update_progress` the handler turns it into a 500 response,
in `update_parent_progress` the enclosing `try` swallows it into a log
line.  The `exc` field records what escapes to the caller as a Python
exception (always nothing, because of the catch-all `except`). -/

structure AggResult where
  store : Store
  log : List String
  exc : Except String Unit
deriving Repr

/-- `update_parent_progress(parent_id)` (`app.py`, lines 351-371):
read the direct children; if any exist, compute
`total_progress // len(children)` (Python floor division) and persist
it on the parent; then look the parent up and, if it has a parent of
its own, evaluate `self.update_parent_progress(...)`, which raises
`NameError` (`self` is not defined in a module-level function).  Every
exception — the `NameError`, or a persist failure for a parent id in
`persistFail` — is caught by the function's own `except`, logged, and
swallowed. -/
def update_parent_progress (s : Store) (persistFail : List Nat)
    (parent_id : Nat) : AggResult :=
  let children := childrenOf s parent_id
  if children.isEmpty then
    { store := s, log := [], exc := Except.ok () }
  else
    let total : Int := (children.map (·.progress)).sum
    let avg : Int := Int.fdiv total children.length
    if persistFail.contains parent_id then
      { store := s
        log := ["Error updating parent progress: persist failed"]
        exc := Except.ok () }
    else
      let s' := setProgress s parent_id avg
      match (getNode s' parent_id).bind (·.parent_id) with
      | some _ =>
        { store := s'
          log := ["Error updating parent progress: name self is not defined"]
          exc := Except.ok () }
      | none => { store := s', log := [], exc := Except.ok () }

/-- `update_progress(model_id)` (`app.py`, lines 331-349): persist the
new progress on the model, then — if the updated row exists and has a
`parent_model_id` — evaluate `self.update_parent_progress(parent_id)`,
which raises `NameError` and is turned into a 500 response by the
route's `except`; the parent's progress is never recomputed.  A missing
model also yields 500 (`res.data[0]` raises `IndexError`).  Returns the
resulting store and the HTTP status code. -/
def update_progress (s : Store) (model_id : Nat) (progress : Int) :
    Store × Nat :=
  let s' := setProgress s model_id progress
  match getNode s' model_id with
  | some n =>
    match n.parent_id with
    | some _ => (s', 500)
    | none => (s', 200)
  | none => (s', 500)

/-! ## Node creation (`app.py`, lines 106-137) -/

/-- `create_model` (`app.py`, lines 106-137): determine `level` (1 for
a root; the parent's stored level plus one when `parent_model_id` is
supplied and resolves), then insert a fresh row with `progress 0` and
empty `content`.  The generated UUID is modelled by the caller-supplied
fresh id `newId`.  No `position` field appears in the inserted row. -/
def create_model (s : Store) (newId : Nat) (title : String)
    (photo : Option String) (parent_model_id : Option Nat) : Store :=
  let level : Int :=
    match parent_model_id with
    | none => 1
    | some p =>
      match getNode s p with
      | some parent => parent.level + 1
      | none => 1
  s ++ [{ id := newId, parent_id := parent_model_id, title := title
          photo := photo, content := [], progress := 0
          level := level, position := none }]

/-! ## Generic node update (`app.py`, lines 139-148, and
`PlanManager.update_plan`, `deepseek_python_20260219_9ba60a.py`,
lines 92-101)

Both routes pass the client-supplied JSON body straight to
`update(data).eq('id', model_id)`.  A field present in the body
overwrites the column; an absent field leaves it untouched. -/

/-- The client-supplied partial update body of `update_model` /
`PlanManager.update_plan`.  `none` means the key is absent from the
JSON body. -/
structure ModelUpdate where
  title : Option String := none
  photo : Option (Option String) := none
  content : Option (List ContentItem) := none
  progress : Option Int := none
  parent_model_id : Option (Option Nat) := none
  level : Option Int := none
deriving Repr, DecidableEq

/-- Apply a partial update body to one row. -/
def applyUpdate (d : ModelUpdate) (n : Node) : Node :=
  { n with
    title := d.title.getD n.title
    photo := d.photo.getD n.photo
    content := d.content.getD n.content
    progress := d.progress.getD n.progress
    parent_id := d.parent_model_id.getD n.parent_id
    level := d.level.getD n.level }

/-- `update_model` (`app.py`, lines 139-148):
`supabase.table("models").update(data).eq("id", model_id)` — every
field of the request body, `parent_model_id` included, is written to
the matching row. -/
def update_model (s : Store) (model_id : Nat) (d : ModelUpdate) : Store :=
  s.map (fun n => if n.id = model_id then applyUpdate d n else n)

/-- `update_plan` (`deepseek_python_20260219_4c20d8.py`, lines
190-221): the restricted variant — only `title` and `photo` are copied
from the body into `update_data`, so no other column can change. -/
def update_plan_v2 (s : Store) (plan_id : Nat)
    (title photo : Option String) : Store :=
  s.map (fun n =>
    if n.id = plan_id then
      { n with title := title.getD n.title
               photo := match photo with | some v => some v | none => n.photo }
    else n)

/-! ## Content operations -/

/-- The update loop of `ContentManager.update_content`
(`deepseek_python_20260219_9ba60a.py`, lines 151-172) and of
`update_plan_content` (`app.py`, lines 690-721): walk the content list
and overwrite the data of the first item whose id matches, then stop. -/
def updateFirstContent : List ContentItem → Nat → Nat → List ContentItem
  | [], _, _ => []
  | it :: rest, cid, d =>
    if it.id = cid then { it with payload := d } :: rest
    else it :: updateFirstContent rest cid d

/-- `ContentManager.delete_content` (`deepseek_python_20260219_9ba60a.py`,
lines 175-193): fetch the plan (returning `False` if absent), filter
out every content item with the given id, persist the filtered list,
and return `True`. -/
def cm_delete_content (s : Store) (plan_id content_id : Nat) :
    Store × Bool :=
  match getNode s plan_id with
  | none => (s, false)
  | some plan =>
    let newContent := plan.content.filter (fun it => it.id ≠ content_id)
    (setContent s plan_id newContent, true)

/-- `ContentManager.update_content` (`deepseek_python_20260219_9ba60a.py`,
lines 151-172): fetch the plan (returning `none` if absent), update the
first matching content item in place, persist the list, and return the
updated data. -/
def cm_update_content (s : Store) (plan_id content_id : Nat)
    (updated_data : Nat) : Store × Option Nat :=
  match getNode s plan_id with
  | none => (s, none)
  | some plan =>
    let newContent := updateFirstContent plan.content content_id updated_data
    (setContent s plan_id newContent, some updated_data)

/-- `delete_plan_content` (`app.py`, lines 723-762): 404 when the plan
is absent; otherwise destroy the Cloudinary ids of the matching photo
item (if any; failures ignored), remove every item with the given id,
persist, and return 200.  Result: store, destroy invocations, HTTP
status. -/
def delete_plan_content (s : Store) (plan_id content_id : Nat) :
    Store × List BlobKey × Nat :=
  match getNode s plan_id with
  | none => (s, [], 404)
  | some plan =>
    let destroys :=
      match plan.content.find? (fun it => it.id = content_id && it.isPhoto) with
      | some it => it.mediaRefs.map BlobKey.refKey
      | none => []
    let newContent := plan.content.filter (fun it => it.id ≠ content_id)
    (setContent s plan_id newContent, destroys, 200)

/-! ## Concrete scenario stores used by the claim theorems -/

/-- A single root plan whose only content item is a photo gallery
holding the blob reference `img_1`. -/
def c1Store : Store :=
  [{ id := 1, parent_id := none, title := "root", photo := none
     content := [{ id := 10, isPhoto := true, mediaRefs := ["img_1"],
                   payload := 0 }]
     progress := 0, level := 1, position := none }]

/-- A root (id `1`) with one child (id `2`); no media anywhere. -/
def c1WitnessStore : Store :=
  [{ id := 1, parent_id := none, title := "r", photo := none, content := []
     progress := 0, level := 1, position := none },
   { id := 2, parent_id := some 1, title := "c", photo := none, content := []
     progress := 0, level := 2, position := none }]

/-- A parent (id `1`, progress `0`) with two children: id `2` and id `3`
(progress `60`).  Updating child `2` to progress `40` should, per the
spec, leave the parent at `floor((40+60)/2) = 50`. -/
def c2Store : Store :=
  [{ id := 1, parent_id := none, title := "P", photo := none, content := []
     progress := 0, level := 1, position := none },
   { id := 2, parent_id := some 1, title := "c1", photo := none, content := []
     progress := 0, level := 2, position := none },
   { id := 3, parent_id := some 1, title := "c2", photo := none, content := []
     progress := 60, level := 2, position := none }]

/-- A four-level chain `root(1) → A(2) → B(3) → C(4)`, all progress 0. -/
def c3Store : Store :=
  [{ id := 1, parent_id := none, title := "root", photo := none, content := []
     progress := 0, level := 1, position := none },
   { id := 2, parent_id := some 1, title := "A", photo := none, content := []
     progress := 0, level := 2, position := none },
   { id := 3, parent_id := some 2, title := "B", photo := none, content := []
     progress := 0, level := 3, position := none },
   { id := 4, parent_id := some 3, title := "C", photo := none, content := []
     progress := 0, level := 4, position := none }]

/-- A root `R(1)` with children `A(2)` (itself parent of `A1(4)`) and
`B(3)`; `A` is listed before `B`. -/
def c4Store : Store :=
  [{ id := 1, parent_id := none, title := "R", photo := none, content := []
     progress := 0, level := 1, position := none },
   { id := 2, parent_id := some 1, title := "A", photo := none, content := []
     progress := 0, level := 2, position := none },
   { id := 4, parent_id := some 2, title := "A1", photo := none, content := []
     progress := 0, level := 3, position := none },
   { id := 3, parent_id := some 1, title := "B", photo := none, content := []
     progress := 0, level := 2, position := none }]

/-- A root `R(1)` with children `A(2)` and `B(3)`, `A` listed first. -/
def c8Store : Store :=
  [{ id := 1, parent_id := none, title := "R", photo := none, content := []
     progress := 0, level := 1, position := none },
   { id := 2, parent_id := some 1, title := "A", photo := none, content := []
     progress := 0, level := 2, position := none },
   { id := 3, parent_id := some 1, title := "B", photo := none, content := []
     progress := 0, level := 2, position := none }]

/-- A parent (id `1`, progress `0`) with a single child (id `2`,
progress `50`). -/
def c7Store : Store :=
  [{ id := 1, parent_id := none, title := "P", photo := none, content := []
     progress := 0, level := 1, position := none },
   { id := 2, parent_id := some 1, title := "C", photo := none, content := []
     progress := 50, level := 2, position := none }]

/-- Store reached by creating root `A(1)` and then child `B(2)` under
it, through `create_model`. -/
def c6Store : Store :=
  create_model (create_model [] 1 "A" none none) 2 "B" none (some 1)

/-- The `update_model` request body `{"parent_model_id": 2}` — a
reparent payload the route forwards verbatim. -/
def c6Upd : ModelUpdate := { parent_model_id := some (some 2) }

/-- A childless root created through `create_model`. -/
def c9Store : Store := create_model [] 1 "root" none none

/-- A plan (id `1`) whose content list holds the single item id `10`. -/
def c10Plan : Node :=
  { id := 1, parent_id := none, title := "P", photo := none
    content := [{ id := 10, isPhoto := false, mediaRefs := [], payload := 7 }]
    progress := 0, level := 1, position := none }

/-- The store holding exactly `c10Plan`. -/
def c10Store : Store := [c10Plan]

/-- The row `create_model` inserts for a first child (id `2`) under the
root of `c9Store`. -/
def c9Child : Node :=
  { id := 2, parent_id := some 1, title := "child", photo := none
    content := [], progress := 0, level := 2, position := none }

/-- Node `A` of `c6Store` after the reparenting update: its
`parent_id` now points at its own child `B(2)`. -/
def c6ANode : Node :=
  { id := 1, parent_id := some 2, title := "A", photo := none
    content := [], progress := 0, level := 1, position := none }

/-! ## Tree facts: descendants, levels, and the collected id set -/

theorem nodeKey_injective : Function.Injective BlobKey.nodeKey := by
  intro a b h
  injection h

theorem mem_childIds {s : Store} {p c : Nat} :
    c ∈ childIds s p ↔ isChild s p c := by
  simp only [childIds, childrenOf, isChild, List.mem_map, List.mem_filter,
    decide_eq_true_eq]
  constructor
  · rintro ⟨n, ⟨hn, hp⟩, hid⟩
    exact ⟨n, hn, hid, hp⟩
  · rintro ⟨n, hn, hid, hp⟩
    exact ⟨n, ⟨hn, hp⟩, hid⟩

theorem getNode_eq_of_mem {s : Store} {n : Node} (hu : UniqueIds s)
    (hn : n ∈ s) : getNode s n.id = some n := by
  induction s with
  | nil => cases hn
  | cons a t ih =>
    have hu2 : (a.id ∉ t.map (·.id)) ∧ UniqueIds t := by
      have : (a.id :: t.map (·.id)).Nodup := by simpa [UniqueIds] using hu
      exact List.nodup_cons.mp this
    rcases List.mem_cons.mp hn with h | h
    · subst h
      simp [getNode, List.find?_cons_of_pos]
    · have hne : ¬ (a.id = n.id) := by
        intro he
        exact hu2.1 (he ▸ List.mem_map.mpr ⟨n, h, rfl⟩)
      simp only [getNode] at ih ⊢
      rw [List.find?_cons_of_neg _ (by simpa using hne)]
      exact ih hu2.2 h

theorem getNode_mem {s : Store} {i : Nat} {n : Node}
    (h : getNode s i = some n) : n ∈ s ∧ n.id = i := by
  refine ⟨List.mem_of_find?_eq_some h, ?_⟩
  have := List.find?_some h
  simpa using this

theorem isChild_parent_unique {s : Store} {p q c : Nat} (hu : UniqueIds s)
    (h1 : isChild s p c) (h2 : isChild s q c) : p = q := by
  obtain ⟨n1, hn1, hid1, hp1⟩ := h1
  obtain ⟨n2, hn2, hid2, hp2⟩ := h2
  have e1 : getNode s c = some n1 := hid1 ▸ getNode_eq_of_mem hu hn1
  have e2 : getNode s c = some n2 := hid2 ▸ getNode_eq_of_mem hu hn2
  have : n1 = n2 := by
    have := e1.symm.trans e2
    exact Option.some.inj this
  have := hp1.symm.trans (this ▸ hp2)
  exact Option.some.inj this

theorem lvl_lt_of_isChild {s : Store} {p c : Nat} (hu : UniqueIds s)
    (hok : LevelOK s) (hpos : LevelPos s) (h : isChild s p c) :
    lvlOf s p < lvlOf s c := by
  obtain ⟨n, hn, hid, hpar⟩ := h
  have hc : getNode s c = some n := hid ▸ getNode_eq_of_mem hu hn
  have hcl : lvlOf s c = n.level := by simp [lvlOf, hc]
  cases hm : getNode s p with
  | none =>
    have : lvlOf s p = 0 := by simp [lvlOf, hm]
    have := hpos n hn
    omega
  | some m =>
    obtain ⟨hmm, hmid⟩ := getNode_mem hm
    have : lvlOf s p = m.level := by simp [lvlOf, hm]
    have hlt := hok n hn m hmm (hmid ▸ hpar)
    omega

theorem lvl_lt_of_desc {s : Store} {p c : Nat} (hu : UniqueIds s)
    (hok : LevelOK s) (hpos : LevelPos s) (h : Desc s p c) :
    lvlOf s p < lvlOf s c := by
  induction h with
  | single hr => exact lvl_lt_of_isChild hu hok hpos hr
  | tail _ hr ih => exact lt_trans ih (lvl_lt_of_isChild hu hok hpos hr)

theorem not_desc_self {s : Store} {p : Nat} (hu : UniqueIds s)
    (hok : LevelOK s) (hpos : LevelPos s) : ¬ Desc s p p := fun h =>
  lt_irrefl _ (lvl_lt_of_desc hu hok hpos h)

theorem desc_of_mem_gaci {s : Store} :
    ∀ {fuel p c}, c ∈ get_all_child_ids s fuel p → Desc s p c := by
  intro fuel
  induction fuel with
  | zero => intro p c h; cases h
  | succ f ih =>
    intro p c h
    simp only [get_all_child_ids] at h
    rcases List.mem_append.mp h with h | h
    · exact Relation.TransGen.single (mem_childIds.mp h)
    · rcases List.mem_flatMap.mp h with ⟨m, hm, hc⟩
      exact Relation.TransGen.head (mem_childIds.mp hm) (ih hc)

theorem mem_gaci_of_desc {s : Store} (hu : UniqueIds s) (hok : LevelOK s)
    (hpos : LevelPos s) {p c : Nat} (h : Desc s p c) :
    ∀ fuel : Nat, lvlOf s c ≤ lvlOf s p + fuel →
      c ∈ get_all_child_ids s fuel p := by
  induction h using Relation.TransGen.head_induction_on with
  | base hr =>
    intro fuel hf
    have hlt := lvl_lt_of_isChild hu hok hpos hr
    match fuel with
    | 0 => omega
    | f + 1 =>
      simp only [get_all_child_ids]
      exact List.mem_append.mpr (Or.inl (mem_childIds.mpr hr))
  | ih hr hd ihm =>
    intro fuel hf
    have h1 := lvl_lt_of_isChild hu hok hpos hr
    have h2 := lvl_lt_of_desc hu hok hpos hd
    match fuel with
    | 0 => omega
    | f + 1 =>
      simp only [get_all_child_ids]
      refine List.mem_append.mpr (Or.inr (List.mem_flatMap.mpr
        ⟨_, mem_childIds.mpr hr, ihm f (by omega)⟩))

theorem childIds_nodup {s : Store} (hu : UniqueIds s) (p : Nat) :
    (childIds s p).Nodup := by
  have hsub : (childIds s p).Sublist (s.map (·.id)) :=
    List.Sublist.map _ (List.filter_sublist s)
  exact hsub.nodup hu

theorem not_desc_sibling {s : Store} (hu : UniqueIds s) (hok : LevelOK s)
    (hpos : LevelPos s) {p c1 c2 : Nat} (h1 : isChild s p c1)
    (h2 : isChild s p c2) (hd : Desc s c1 c2) : False := by
  cases hd with
  | single hr =>
    have he : c1 = p := isChild_parent_unique hu hr h2
    exact not_desc_self hu hok hpos (Relation.TransGen.single (he ▸ h1))
  | tail hd' hr =>
    have hmp : _ = p := isChild_parent_unique hu hr h2
    exact not_desc_self hu hok hpos
      (Relation.TransGen.head h1 (hmp ▸ hd'))

theorem desc_comparable {s : Store} (hu : UniqueIds s) {a b x : Nat}
    (h1 : Desc s a x) (h2 : Desc s b x) :
    a = b ∨ Desc s a b ∨ Desc s b a := by
  revert h2
  induction h1 with
  | single hr =>
    intro h2
    cases h2 with
    | single hr2 => exact Or.inl (isChild_parent_unique hu hr hr2)
    | tail hd2 hr2 =>
      have he : a = _ := isChild_parent_unique hu hr hr2
      exact Or.inr (Or.inr (he ▸ hd2))
  | tail hd hr ih =>
    intro h2
    cases h2 with
    | single hr2 =>
      have he : _ = b := isChild_parent_unique hu hr hr2
      exact Or.inr (Or.inl (he ▸ hd))
    | tail hd2 hr2 =>
      have he : _ = _ := isChild_parent_unique hu hr hr2
      exact ih (he ▸ hd2)

theorem gaci_nodup {s : Store} (hu : UniqueIds s) (hok : LevelOK s)
    (hpos : LevelPos s) : ∀ fuel p, (get_all_child_ids s fuel p).Nodup := by
  intro fuel
  induction fuel with
  | zero => intro _; exact List.nodup_nil
  | succ f ih =>
    intro p
    simp only [get_all_child_ids]
    apply List.Nodup.append
    · exact childIds_nodup hu p
    · refine List.nodup_flatMap.mpr ⟨fun c _ => ih c, ?_⟩
      refine List.Pairwise.imp_of_mem ?_ (childIds_nodup hu p)
      intro c1 c2 hc1 hc2 hne x hx1 hx2
      have d1 := desc_of_mem_gaci hx1
      have d2 := desc_of_mem_gaci hx2
      rcases desc_comparable hu d1 d2 with he | hd | hd
      · exact hne he
      · exact not_desc_sibling hu hok hpos (mem_childIds.mp hc1)
          (mem_childIds.mp hc2) hd
      · exact not_desc_sibling hu hok hpos (mem_childIds.mp hc2)
          (mem_childIds.mp hc1) hd
    · intro x hx1 hx2
      rcases List.mem_flatMap.mp hx2 with ⟨c, hc, hxc⟩
      exact not_desc_sibling hu hok hpos (mem_childIds.mp hc)
        (mem_childIds.mp hx1) (desc_of_mem_gaci hxc)

theorem self_not_mem_gaci {s : Store} (hu : UniqueIds s) (hok : LevelOK s)
    (hpos : LevelPos s) (fuel p : Nat) : p ∉ get_all_child_ids s fuel p :=
  fun h => not_desc_self hu hok hpos (desc_of_mem_gaci h)

theorem desc_target_mem {s : Store} {p c : Nat} (h : Desc s p c) :
    ∃ n ∈ s, n.id = c := by
  cases h with
  | single hr =>
    obtain ⟨n, hn, hid, _⟩ := hr
    exact ⟨n, hn, hid⟩
  | tail _ hr =>
    obtain ⟨n, hn, hid, _⟩ := hr
    exact ⟨n, hn, hid⟩

theorem lvlOf_nonneg {s : Store} (hpos : LevelPos s) (i : Nat) :
    0 ≤ lvlOf s i := by
  cases hm : getNode s i with
  | none => simp [lvlOf, hm]
  | some m =>
    have := hpos m (getNode_mem hm).1
    have he : lvlOf s i = m.level := by simp [lvlOf, hm]
    omega

theorem mem_all_ids {s : Store} {N fuel : Nat} (hwf : WF s)
    (hfuel : ∀ n ∈ s, n.level ≤ (fuel : Int)) {x : Nat}
    (hx : x = N ∨ Desc s N x) :
    x ∈ N :: get_all_child_ids s fuel N := by
  obtain ⟨hu, _, hok, hpos⟩ := hwf
  rcases hx with rfl | hd
  · exact List.mem_cons_self _ _
  · refine List.mem_cons_of_mem _ (mem_gaci_of_desc hu hok hpos hd fuel ?_)
    obtain ⟨n, hn, hid⟩ := desc_target_mem hd
    have hx : lvlOf s x = n.level := by
      simp [lvlOf, hid ▸ getNode_eq_of_mem hu hn]
    have h1 := hfuel n hn
    have h2 := lvlOf_nonneg hpos N
    omega

theorem all_ids_nodup {s : Store} {N fuel : Nat} (hwf : WF s) :
    (N :: get_all_child_ids s fuel N).Nodup := by
  obtain ⟨hu, _, hok, hpos⟩ := hwf
  exact List.nodup_cons.mpr
    ⟨self_not_mem_gaci hu hok hpos fuel N, gaci_nodup hu hok hpos fuel N⟩

/-! ## Claim C1 — subtree deletion completeness -/

/-- C1 counterexample: on `c1Store`, `delete_plan 1` succeeds — the row
is gone afterwards — yet the media reference `img_1`, which is held by
the deleted node's content item, never has a blob-store delete invoked
(so not "exactly once" as the claim requires): `delete_plan` only
destroys the per-node id-derived keys and ignores content-item media. -/
theorem c1_counterexample :
    getNode (delete_plan c1Store 5 [] 1).store 1 = none ∧
    ¬ ((delete_plan c1Store 5 [] 1).blobDeletes.count
        (BlobKey.refKey "img_1") = 1) := by
  constructor
  · rfl
  · decide

/-- C1 (amended): for a well-formed store and sufficient recursion
depth, after `delete_plan N` (i) `getNode` returns `NotFound` for `N`
and every descendant, (ii) the blob store's delete is invoked exactly
once on the id-derived media key of `N` and of every descendant, but
(iii) no content-item media reference is ever passed to the blob
store's delete. -/
theorem c1_subtree_deletion {s : Store} {N fuel : Nat}
    (blobFail : List BlobKey) (hwf : WF s)
    (hfuel : ∀ n ∈ s, n.level ≤ (fuel : Int)) :
    (∀ x, x = N ∨ Desc s N x →
      getNode (delete_plan s fuel blobFail N).store x = none) ∧
    (∀ x, x = N ∨ Desc s N x →
      (delete_plan s fuel blobFail N).blobDeletes.count
        (BlobKey.nodeKey x) = 1) ∧
    (∀ r : String,
      BlobKey.refKey r ∉ (delete_plan s fuel blobFail N).blobDeletes) := by
  refine ⟨?_, ?_, ?_⟩
  · intro x hx
    have hmem := mem_all_ids hwf hfuel hx
    simp only [delete_plan, getNode]
    rw [List.find?_eq_none]
    intro n hn hpx
    have hn2 := List.mem_filter.mp hn
    have hcontains : ((N :: get_all_child_ids s fuel N).contains n.id) = false := by
      simpa using hn2.2
    have : n.id = x := by simpa using hpx
    rw [this] at hcontains
    have : x ∉ N :: get_all_child_ids s fuel N := by
      simpa using hcontains
    exact this hmem
  · intro x hx
    simp only [delete_plan]
    rw [List.count_map_of_injective _ _ nodeKey_injective]
    exact List.count_eq_one_of_mem (all_ids_nodup hwf) (mem_all_ids hwf hfuel hx)
  · intro r hr
    simp only [delete_plan, List.mem_map] at hr
    obtain ⟨a, _, h⟩ := hr
    exact BlobKey.noConfusion h

/-- Witness for C1 at `c1WitnessStore`: deleting root `1` removes the
descendant row `2` and destroys its id-derived media key exactly once. -/
theorem c1_subtree_deletion_witness :
    getNode (delete_plan c1WitnessStore 3 [] 1).store 2 = none ∧
    (delete_plan c1WitnessStore 3 [] 1).blobDeletes.count
      (BlobKey.nodeKey 2) = 1 :=
  ⟨(c1_subtree_deletion [] (by decide) (by decide)).1 2
      (Or.inr (Relation.TransGen.single (by decide))),
   (c1_subtree_deletion [] (by decide) (by decide)).2.1 2
      (Or.inr (Relation.TransGen.single (by decide)))⟩

/-! ## Claims C2 and C3 — progress aggregation

`update_progress` evaluates `self.update_parent_progress(parent_id)`
from a module-level function, so whenever the updated model has a
parent the route raises `NameError`, answers 500, and never recomputes
any ancestor's progress.  The theorems below evaluate the embedded
route at the failing inputs. -/

/-- C2 failing input: on `c2Store`, setting child `2`'s progress to 40
(sibling `3` has progress 60) returns HTTP 500 and leaves the parent's
stored progress at `0`, not at `floor((40+60)/2) = 50` as the claim
requires. -/
theorem c2_aggregation_bug :
    (update_progress c2Store 2 40).2 = 500 ∧
    (getNode (update_progress c2Store 2 40).1 1).map (·.progress) = some 0 ∧
    ¬ ((getNode (update_progress c2Store 2 40).1 1).map (·.progress)
        = some (Int.fdiv (40 + 60) 2)) := by
  refine ⟨rfl, rfl, by decide⟩

/-- C3 failing input: on the four-level chain `c3Store`, setting
`C(4)`'s progress to 100 returns HTTP 500; `B(3)`, `A(2)` and the root
all keep progress `0` — no ancestor is recomputed — while `C`'s own
write is persisted. -/
theorem c3_propagation_bug :
    (update_progress c3Store 4 100).2 = 500 ∧
    (getNode (update_progress c3Store 4 100).1 3).map (·.progress) = some 0 ∧
    (getNode (update_progress c3Store 4 100).1 2).map (·.progress) = some 0 ∧
    (getNode (update_progress c3Store 4 100).1 1).map (·.progress) = some 0 ∧
    (getNode (update_progress c3Store 4 100).1 4).map (·.progress)
      = some 100 := by
  refine ⟨rfl, rfl, rfl, rfl, rfl⟩

/-! ## Claim C7 — aggregation failure handling -/

theorem node_id_setProgress (n : Node) (i : Nat) (p : Int) :
    (if n.id = i then { n with progress := p } else n).id = n.id := by
  split <;> rfl

theorem getNode_setProgress (s : Store) (i : Nat) (p : Int) (j : Nat) :
    getNode (setProgress s i p) j =
      (getNode s j).map
        (fun n => if n.id = i then { n with progress := p } else n) := by
  simp only [getNode, setProgress]
  rw [List.find?_map]
  have hpred : ((fun n => decide (n.id = j)) ∘
      fun (n : Node) => if n.id = i then { n with progress := p } else n)
      = (fun (n : Node) => decide (n.id = j)) := by
    funext n
    simp only [Function.comp, node_id_setProgress]
  rw [hpred]

theorem update_progress_store (s : Store) (mid : Nat) (p : Int) :
    (update_progress s mid p).1 = setProgress s mid p := by
  cases hm : getNode (setProgress s mid p) mid with
  | none => simp [update_progress, hm]
  | some n =>
    cases hp : n.parent_id with
    | none => simp [update_progress, hm, hp]
    | some q => simp [update_progress, hm, hp]

/-- C7 counterexample: on `c7Store` with the persist for parent `1`
failing, `update_parent_progress` logs the failure and returns normally
— nothing escapes to the caller (`exc = ok`) and the store is
untouched.  The failure is therefore not surfaced, contrary to the
claim. -/
theorem c7_counterexample :
    (update_parent_progress c7Store [1] 1).exc = Except.ok () ∧
    (update_parent_progress c7Store [1] 1).store = c7Store ∧
    (update_parent_progress c7Store [1] 1).log ≠ [] := by
  refine ⟨rfl, rfl, by decide⟩

/-- C7 (amended): the aggregation helper never surfaces an error to its
caller (the catch-all `except` swallows everything); when persisting
the parent's aggregate fails, the remaining upward propagation is
abandoned with this level's store untouched and the failure only
logged; and the node's own progress write — applied by
`update_progress` before the aggregation attempt — remains persisted. -/
theorem c7_aggregation_failure (s : Store) (persistFail : List Nat)
    (pid : Nat) :
    (update_parent_progress s persistFail pid).exc = Except.ok () ∧
    (pid ∈ persistFail → (childrenOf s pid).isEmpty = false →
      (update_parent_progress s persistFail pid).store = s ∧
      (update_parent_progress s persistFail pid).log ≠ []) ∧
    (∀ mid p n, getNode s mid = some n →
      getNode (update_progress s mid p).1 mid
        = some { n with progress := p }) := by
  refine ⟨?_, ?_, ?_⟩
  · unfold update_parent_progress
    dsimp only
    split
    · rfl
    · split
      · rfl
      · split <;> rfl
  · intro hmem hne
    have hcontains : persistFail.contains pid = true := by simpa using hmem
    unfold update_parent_progress
    dsimp only
    rw [if_neg (by simp [hne]), if_pos hcontains]
    exact ⟨rfl, by simp⟩
  · intro mid p n hn
    rw [update_progress_store, getNode_setProgress, hn]
    have hid : n.id = mid := (getNode_mem hn).2
    simp [hid]

/-- Witness for C7 on `c7Store`: a persist failure for parent `1` is
swallowed (store unchanged, log non-empty, nothing raised). -/
theorem c7_aggregation_failure_witness :
    (update_parent_progress c7Store [1] 1).store = c7Store ∧
    (update_parent_progress c7Store [1] 1).log ≠ [] :=
  (c7_aggregation_failure c7Store [1] 1).2.1 (by decide) (by decide)

/-! ## Claim C4 — collect-before-delete ordering -/

theorem gaci_tr_reads {s : Store} :
    ∀ {fuel p}, ∀ e ∈ (get_all_child_ids_tr s fuel p).2, e.isRead = true := by
  intro fuel
  induction fuel with
  | zero => intro p e h; cases h
  | succ f ih =>
    intro p e h
    simp only [get_all_child_ids_tr] at h
    rcases List.mem_cons.mp h with rfl | h2
    · rfl
    · rcases List.mem_flatten.mp h2 with ⟨l, hl, hel⟩
      rcases List.mem_map.mp hl with ⟨pr, hpr, rfl⟩
      rcases List.mem_map.mp hpr with ⟨c, _, rfl⟩
      exact ih _ hel

theorem delete_plan_tr_reads_first (s : Store) (fuel N : Nat) :
    readsBeforeDeletes (delete_plan_tr s fuel N).2 = true := by
  unfold delete_plan_tr readsBeforeDeletes
  dsimp only
  apply List.any_eq_true.mpr
  refine ⟨(get_all_child_ids_tr s fuel N).2.length, ?_, ?_⟩
  · apply List.mem_range.mpr
    simp [List.length_append]
    omega
  · rw [Bool.and_eq_true]
    constructor
    · rw [List.append_assoc, List.take_left]
      apply List.all_eq_true.mpr
      intro e he
      have hr := gaci_tr_reads e he
      cases e <;> simp_all [Ev.isRead, Ev.isDelete]
    · rw [List.append_assoc, List.drop_left]
      apply List.all_eq_true.mpr
      intro e he
      rcases List.mem_append.mp he with h | h
      · rcases List.mem_map.mp h with ⟨pid2, _, rfl⟩
        rfl
      · rcases List.mem_singleton.mp h with rfl
        rfl

theorem delAfterOwnRead_nil : DelAfterOwnRead [] := by
  intro i x h
  simp at h

theorem delAfterOwnRead_append {t1 t2 : List Ev}
    (h1 : DelAfterOwnRead t1) (h2 : DelAfterOwnRead t2) :
    DelAfterOwnRead (t1 ++ t2) := by
  intro i x h
  by_cases hi : i < t1.length
  · rw [List.getElem?_append_left hi] at h
    obtain ⟨j, hj, hjr⟩ := h1 i x h
    exact ⟨j, hj, by rw [List.getElem?_append_left (by omega)]; exact hjr⟩
  · push_neg at hi
    rw [List.getElem?_append_right hi] at h
    obtain ⟨j, hj, hjr⟩ := h2 _ x h
    refine ⟨t1.length + j, by omega, ?_⟩
    rw [List.getElem?_append_right (by omega)]
    have he : t1.length + j - t1.length = j := by omega
    rw [he]
    exact hjr

theorem delAfterOwnRead_cons_read {tr : List Ev} (q : Nat)
    (h : DelAfterOwnRead tr) :
    DelAfterOwnRead (Ev.readChildren q :: tr) := by
  intro i x hi
  cases i with
  | zero => simp [List.getElem?_cons_zero] at hi
  | succ k =>
    rw [List.getElem?_cons_succ] at hi
    obtain ⟨j, hj, hjr⟩ := h k x hi
    exact ⟨j + 1, by omega, by rw [List.getElem?_cons_succ]; exact hjr⟩

theorem delAfterOwnRead_snoc_del {t1 : List Ev} {x : Nat}
    (h1 : DelAfterOwnRead t1) (hx : Ev.readChildren x ∈ t1) :
    DelAfterOwnRead (t1 ++ [Ev.delRow x]) := by
  intro i y hi
  by_cases hlt : i < t1.length
  · rw [List.getElem?_append_left hlt] at hi
    obtain ⟨j, hj, hjr⟩ := h1 i y hi
    exact ⟨j, hj, by rw [List.getElem?_append_left (by omega)]; exact hjr⟩
  · push_neg at hlt
    rw [List.getElem?_append_right hlt] at hi
    have hxy : y = x := by
      rcases hk : i - t1.length with _ | k
      · rw [hk, List.getElem?_cons_zero] at hi
        have h3 := Option.some.inj hi
        injection h3 with h4
        exact h4.symm
      · rw [hk] at hi
        simp at hi
    subst hxy
    obtain ⟨j, hjr⟩ := List.mem_iff_getElem?.mp hx
    have hjlen : j < t1.length := by
      rcases List.getElem?_eq_some.mp hjr with ⟨hlen, _⟩
      exact hlen
    refine ⟨j, by omega, ?_⟩
    rw [List.getElem?_append_left hjlen]
    exact hjr

theorem pm_loop_delAfterOwnRead (f : Store → Nat → PMResult)
    (hf : ∀ s c, DelAfterOwnRead (f s c).trace) :
    ∀ s cs, DelAfterOwnRead (pm_loop f s cs).2.1 := by
  intro s cs
  induction cs generalizing s with
  | nil => exact delAfterOwnRead_nil
  | cons c cs' ih => exact delAfterOwnRead_append (hf s c) (ih _)

theorem pm_delAfterOwnRead (rf : List Nat) :
    ∀ fuel s pid, DelAfterOwnRead (pm_delete_plan rf fuel s pid).trace := by
  intro fuel
  induction fuel with
  | zero => intro s pid; exact delAfterOwnRead_nil
  | succ f ih =>
    intro s pid
    have hsub := pm_loop_delAfterOwnRead (pm_delete_plan rf f) ih s (childIds s pid)
    by_cases hc : pid ∈ rf
    · have he : (pm_delete_plan rf (f + 1) s pid).trace
          = Ev.readChildren pid ::
            (pm_loop (pm_delete_plan rf f) s (childIds s pid)).2.1 := by
        simp [pm_delete_plan, hc]
      rw [he]
      exact delAfterOwnRead_cons_read _ hsub
    · have he : (pm_delete_plan rf (f + 1) s pid).trace
          = (Ev.readChildren pid ::
             (pm_loop (pm_delete_plan rf f) s (childIds s pid)).2.1)
            ++ [Ev.delRow pid] := by
        simp [pm_delete_plan, hc]
      rw [he]
      exact delAfterOwnRead_snoc_del (delAfterOwnRead_cons_read _ hsub)
        (List.mem_cons_self _ _)

/-- C4 counterexample: running `PlanManager.delete_plan` on the root of
`c4Store` produces the trace `read 1, read 2, read 4, del 4, del 2,
read 3, del 3, del 1`: the row of `A1(4)` is deleted before sibling
`B(3)`'s children are listed, so the full descendant set is not
computed before deletion begins. -/
theorem c4_counterexample :
    readsBeforeDeletes (pm_delete_plan [] 10 c4Store 1).trace = false := by
  decide

/-- C4 (amended): `delete_plan` of `app.py` does compute the full
descendant id set (all child-listing reads) before any deletion begins;
the recursive `PlanManager.delete_plan` interleaves deletions with
sibling enumeration, but still never deletes a node before that node's
own children-listing read has happened. -/
theorem c4_collect_before_delete (s : Store) (fuel N : Nat)
    (rf : List Nat) (s2 : Store) (fuel2 pid : Nat) :
    readsBeforeDeletes (delete_plan_tr s fuel N).2 = true ∧
    DelAfterOwnRead (pm_delete_plan rf fuel2 s2 pid).trace :=
  ⟨delete_plan_tr_reads_first s fuel N, pm_delAfterOwnRead rf fuel2 s2 pid⟩

/-- Witness for C4: the collect-then-delete property evaluated on
`c4Store`, and the read-before-own-delete property instantiated at the
deletion of node `4` (trace index 3), whose children were read at
index 2. -/
theorem c4_collect_before_delete_witness :
    readsBeforeDeletes (delete_plan_tr c4Store 10 1).2 = true ∧
    (∃ j < 3, (pm_delete_plan [] 10 c4Store 1).trace[j]?
        = some (Ev.readChildren 4)) :=
  ⟨(c4_collect_before_delete c4Store 10 1 [] c4Store 10 1).1,
   (c4_collect_before_delete c4Store 10 1 [] c4Store 10 1).2 3 4 (by decide)⟩

/-! ## Claim C8 — node-deletion failure semantics -/

theorem pm_loop_store_sublist (f : Store → Nat → PMResult)
    (hf : ∀ s c, (f s c).store.Sublist s) :
    ∀ s cs, (pm_loop f s cs).1.Sublist s := by
  intro s cs
  induction cs generalizing s with
  | nil => exact List.Sublist.refl s
  | cons c cs' ih => exact List.Sublist.trans (ih _) (hf s c)

theorem pm_store_sublist (rf : List Nat) :
    ∀ fuel s pid, (pm_delete_plan rf fuel s pid).store.Sublist s := by
  intro fuel
  induction fuel with
  | zero => intro s pid; exact List.Sublist.refl s
  | succ f ih =>
    intro s pid
    have hsub := pm_loop_store_sublist (pm_delete_plan rf f) ih s (childIds s pid)
    by_cases hc : pid ∈ rf
    · have he : (pm_delete_plan rf (f + 1) s pid).store
          = (pm_loop (pm_delete_plan rf f) s (childIds s pid)).1 := by
        simp [pm_delete_plan, hc]
      rw [he]
      exact hsub
    · have he : (pm_delete_plan rf (f + 1) s pid).store
          = (pm_loop (pm_delete_plan rf f) s (childIds s pid)).1.filter
              (fun n => n.id ≠ pid) := by
        simp [pm_delete_plan, hc]
      rw [he]
      exact List.Sublist.trans (List.filter_sublist _) hsub

/-- C8 counterexample: on `c8Store` with the row delete of `A(2)`
failing, `PlanManager.delete_plan 1` still deletes sibling `B(3)` and
the root `1` after the failure and reports overall success (`True`) —
the remaining traversal is not aborted and no error is surfaced, only
`A`'s row survives. -/
theorem c8_counterexample :
    (pm_delete_plan [2] 10 c8Store 1).ok = true ∧
    getNode (pm_delete_plan [2] 10 c8Store 1).store 3 = none ∧
    getNode (pm_delete_plan [2] 10 c8Store 1).store 1 = none ∧
    (getNode (pm_delete_plan [2] 10 c8Store 1).store 2).isSome = true := by
  refine ⟨rfl, rfl, rfl, rfl⟩

/-- C8 (amended): a failed row delete is caught inside the failing
node's own `delete_plan` call, which reports `False` and logs that
node's id; a call whose own row delete succeeds reports `True`
regardless of failures in its subtree (child results are discarded);
and rows are only ever removed, never restored (no rollback). -/
theorem c8_deletion_failure (rf : List Nat) (fuel : Nat) (s : Store)
    (pid : Nat) :
    (pid ∈ rf → (pm_delete_plan rf fuel s pid).ok = false ∧
      (0 < fuel → pid ∈ (pm_delete_plan rf fuel s pid).log)) ∧
    (pid ∉ rf → 0 < fuel → (pm_delete_plan rf fuel s pid).ok = true) ∧
    (pm_delete_plan rf fuel s pid).store.Sublist s := by
  refine ⟨?_, ?_, pm_store_sublist rf fuel s pid⟩
  · intro hmem
    cases fuel with
    | zero => exact ⟨rfl, by omega⟩
    | succ f =>
      constructor
      · simp [pm_delete_plan, hmem]
      · intro _
        have he : (pm_delete_plan rf (f + 1) s pid).log
            = (pm_loop (pm_delete_plan rf f) s (childIds s pid)).2.2
              ++ [pid] := by
          simp [pm_delete_plan, hmem]
        rw [he]
        simp
  · intro hmem hpos
    cases fuel with
    | zero => omega
    | succ f => simp [pm_delete_plan, hmem]

/-- Witness for C8: deleting node `2` of `c8Store` directly while its
row delete fails reports `False` and logs id `2`. -/
theorem c8_deletion_failure_witness :
    (pm_delete_plan [2] 10 c8Store 2).ok = false ∧
    2 ∈ (pm_delete_plan [2] 10 c8Store 2).log :=
  ⟨((c8_deletion_failure [2] 10 c8Store 2).1 (by decide)).1,
   ((c8_deletion_failure [2] 10 c8Store 2).1 (by decide)).2 (by decide)⟩

/-! ## Claim C5 — media deletion is best-effort -/

/-- C5 counterexample: in `app.py`'s `delete_plan` the destroy loop is
wrapped in a bare `except: pass`, so when the destroy of node `1`'s
media key fails nothing at all is logged — the failure occurred
(`failedDeletes` non-empty) and the row was still deleted, but the
"failure is logged" part of the claim is false for this variant. -/
theorem c5_counterexample :
    (delete_plan c1WitnessStore 3 [BlobKey.nodeKey 1] 1).failedDeletes ≠ [] ∧
    (delete_plan c1WitnessStore 3 [BlobKey.nodeKey 1] 1).log = [] ∧
    getNode (delete_plan c1WitnessStore 3 [BlobKey.nodeKey 1] 1).store 1
      = none := by
  refine ⟨by decide, rfl, rfl⟩

/-- C5 (amended): blob-delete failures never abort the subtree deletion
— the surviving rows and the set of delete invocations are identical
whatever subset of blob deletes fails, and `app.py`'s `delete_plan`
logs nothing at all; the `delete_from_cloudinary` helper of the 4c20d8
variant does log a failure, reports it as `False`, and is silent on
success. -/
theorem c5_media_best_effort (s : Store) (fuel : Nat) (bf : List BlobKey)
    (N : Nat) (fails : List String) (pid : String) :
    ((delete_plan s fuel bf N).store = (delete_plan s fuel [] N).store ∧
     (delete_plan s fuel bf N).blobDeletes
        = (delete_plan s fuel [] N).blobDeletes ∧
     (delete_plan s fuel bf N).log = []) ∧
    (pid ∈ fails → delete_from_cloudinary fails pid
        = (false, ["Cloudinary delete error: " ++ pid])) ∧
    (pid ∉ fails → delete_from_cloudinary fails pid = (true, [])) := by
  refine ⟨⟨rfl, rfl, rfl⟩, ?_, ?_⟩
  · intro h
    unfold delete_from_cloudinary
    rw [if_pos (by simpa using h)]
  · intro h
    unfold delete_from_cloudinary
    rw [if_neg (by simpa using h)]

/-- Witness for C5: a failing destroy of key `x` is logged and reported
`False` by `delete_from_cloudinary`, while `delete_plan` on
`c1WitnessStore` removes the same rows with or without that key
failing. -/
theorem c5_media_best_effort_witness :
    (delete_plan c1WitnessStore 3 [BlobKey.nodeKey 1] 1).store
      = (delete_plan c1WitnessStore 3 [] 1).store ∧
    delete_from_cloudinary ["x"] "x"
      = (false, ["Cloudinary delete error: " ++ "x"]) :=
  ⟨(c5_media_best_effort c1WitnessStore 3 [BlobKey.nodeKey 1] 1 ["x"] "x").1.1,
   (c5_media_best_effort c1WitnessStore 3 [BlobKey.nodeKey 1] 1 ["x"] "x").2.1
     (by decide)⟩

/-! ## Claim C6 — acyclic-by-construction -/

/-- C6 counterexample: starting from the reachable store `c6Store`
(root `A(1)` with child `B(2)`, both built by `create_model`), one
`update_model` call with body `{"parent_model_id": 2}` mutates node
`1`'s `parent_id` — and afterwards node `1` is its own ancestor, so the
store is no longer a forest. -/
theorem c6_counterexample :
    (∃ n ∈ update_model c6Store 1 c6Upd, n.id = 1 ∧ n.parent_id = some 2) ∧
    Desc (update_model c6Store 1 c6Upd) 1 1 := by
  constructor
  · decide
  · have h1 : isChild (update_model c6Store 1 c6Upd) 1 2 := by decide
    have h2 : isChild (update_model c6Store 1 c6Upd) 2 1 := by decide
    exact Relation.TransGen.head h1 (Relation.TransGen.single h2)

/-- C6 (amended): creation fixes `parent_id`, and the restricted update
of the 4c20d8 variant (`update_plan_v2`, only `title`/`photo`) cannot
change it; but the generic `update_model` writes any supplied
`parent_model_id` straight through, so parent links are mutable after
creation and acyclicity is not structurally guaranteed. -/
theorem c6_reparent (s : Store) (mid : Nat) (d : ModelUpdate)
    (p : Option Nat) (t ph : Option String) :
    (d.parent_model_id = some p → ∀ n ∈ update_model s mid d,
      n.id = mid → n.parent_id = p) ∧
    (∀ n ∈ update_plan_v2 s mid t ph,
      ∃ m ∈ s, n.id = m.id ∧ n.parent_id = m.parent_id) := by
  constructor
  · intro hd n hn hid
    rcases List.mem_map.mp hn with ⟨m, hm, rfl⟩
    by_cases hmid : m.id = mid
    · simp only [hmid, if_pos rfl] at hid ⊢
      simp [applyUpdate, hd]
    · simp only [if_neg hmid] at hid ⊢
      exact absurd hid hmid
  · intro n hn
    rcases List.mem_map.mp hn with ⟨m, hm, rfl⟩
    by_cases hmid : m.id = mid
    · refine ⟨m, hm, ?_, ?_⟩ <;> simp [if_pos hmid]
    · refine ⟨m, hm, ?_, ?_⟩ <;> simp [if_neg hmid]

/-- Witness for C6: applied at `c6Store` with the reparent body
`c6Upd`, the updated node `1` carries `parent_id = some 2`. -/
theorem c6_reparent_witness : c6ANode.parent_id = some 2 :=
  (c6_reparent c6Store 1 c6Upd (some 2) none none).1 rfl c6ANode
    (by decide) rfl

/-! ## Claim C9 — position assignment -/

/-- C9 counterexample: creating the first child under the childless
root of `c9Store` yields a row whose `position` is `none` — not `0` as
the claim requires; `create_model` never computes or writes a sibling
position. -/
theorem c9_counterexample :
    getNode (create_model c9Store 2 "child" none (some 1)) 2 = some c9Child ∧
    ¬ (c9Child.position = some 0) := by
  refine ⟨by decide, by decide⟩

/-- C9 (amended): node creation assigns no sibling position at all:
every row of the store after `create_model` either pre-existed or
carries `position = none` (and progress `0`); the `max(sibling
positions) + 1` / first-child-`0` scheme does not exist in the code. -/
theorem c9_no_position (s : Store) (newId : Nat) (t : String)
    (ph : Option String) (par : Option Nat) :
    ∀ n ∈ create_model s newId t ph par,
      n ∈ s ∨ (n.position = none ∧ n.progress = 0) := by
  intro n hn
  simp only [create_model] at hn
  rcases List.mem_append.mp hn with h | h
  · exact Or.inl h
  · right
    rcases List.mem_singleton.mp h with rfl
    exact ⟨rfl, rfl⟩

/-- Witness for C9: the child row just created under `c9Store`'s root
carries no position (it did not pre-exist). -/
theorem c9_no_position_witness :
    c9Child ∈ c9Store ∨ (c9Child.position = none ∧ c9Child.progress = 0) :=
  c9_no_position c9Store 2 "child" none (some 1) c9Child (by decide)

/-! ## Claim C10 — missing content ids are tolerated -/

theorem setContent_self {s : Store} {pid : Nat} {plan : Node}
    (hu : UniqueIds s) (hp : getNode s pid = some plan) :
    setContent s pid plan.content = s := by
  unfold setContent
  have hcongr : ∀ n ∈ s,
      (if n.id = pid then { n with content := plan.content } else n) = n := by
    intro n hn
    by_cases h : n.id = pid
    · have hgn := getNode_eq_of_mem hu hn
      rw [h, hp] at hgn
      have he : plan = n := Option.some.inj hgn
      subst he
      rw [if_pos h]
    · simp [h]
  calc s.map (fun n => if n.id = pid then { n with content := plan.content } else n)
      = s.map id := List.map_congr_left hcongr
    _ = s := List.map_id s

theorem updateFirstContent_of_not_mem {l : List ContentItem} {cid d : Nat}
    (h : ∀ it ∈ l, it.id ≠ cid) : updateFirstContent l cid d = l := by
  induction l with
  | nil => rfl
  | cons a t ih =>
    rw [updateFirstContent, if_neg (h a (List.mem_cons_self a t))]
    rw [ih (fun it hit => h it (List.mem_cons_of_mem a hit))]

/-- C10: when the addressed plan exists but no content item has the
given id, `ContentManager.delete_content` reports success with the
store unchanged, `ContentManager.update_content` reports success with
the store unchanged, `delete_plan_content` answers 200 with the store
unchanged and no blob delete invoked — and `delete_plan_content`
answers 404 only when the plan itself is absent. -/
theorem c10_missing_content (s : Store) (pid cid u : Nat) (plan : Node)
    (hu : UniqueIds s) (hp : getNode s pid = some plan)
    (hc : ∀ it ∈ plan.content, it.id ≠ cid) :
    cm_delete_content s pid cid = (s, true) ∧
    cm_update_content s pid cid u = (s, some u) ∧
    delete_plan_content s pid cid = (s, [], 200) ∧
    (∀ (s2 : Store) (p2 : Nat),
      (delete_plan_content s2 p2 cid).2.2 = 404 → getNode s2 p2 = none) := by
  have hfilter : plan.content.filter (fun it => it.id ≠ cid) = plan.content :=
    List.filter_eq_self.mpr (fun it hit => by simpa using hc it hit)
  refine ⟨?_, ?_, ?_, ?_⟩
  · unfold cm_delete_content
    rw [hp]
    dsimp only
    rw [hfilter, setContent_self hu hp]
  · unfold cm_update_content
    rw [hp]
    dsimp only
    rw [updateFirstContent_of_not_mem hc, setContent_self hu hp]
  · unfold delete_plan_content
    rw [hp]
    dsimp only
    have hfind : plan.content.find? (fun it => it.id = cid && it.isPhoto)
        = none := by
      rw [List.find?_eq_none]
      intro it hit
      simp [hc it hit]
    rw [hfind, hfilter, setContent_self hu hp]
  · intro s2 p2 h404
    cases hg : getNode s2 p2 with
    | none => rfl
    | some plan2 =>
      unfold delete_plan_content at h404
      rw [hg] at h404
      simp at h404

/-- Witness for C10 on `c10Store`: content id `99` matches nothing in
plan `1`; delete and update both report success and leave the store
unchanged, and `delete_plan_content` answers 200 with no destroys. -/
theorem c10_missing_content_witness :
    cm_delete_content c10Store 1 99 = (c10Store, true) ∧
    cm_update_content c10Store 1 99 5 = (c10Store, some 5) ∧
    delete_plan_content c10Store 1 99 = (c10Store, [], 200) :=
  ⟨(c10_missing_content c10Store 1 99 5 c10Plan (by decide) (by decide)
      (by decide)).1,
   (c10_missing_content c10Store 1 99 5 c10Plan (by decide) (by decide)
      (by decide)).2.1,
   (c10_missing_content c10Store 1 99 5 c10Plan (by decide) (by decide)
      (by decide)).2.2.1⟩

end Planer
